import Mathlib

/-!
Verification development for the multi-dialect bank/credit-report PDF
line-parsing and reconciliation engine.

The Python sources are shallowly embedded: pure helper functions become Lean
functions on `String`/`ℚ`; the per-line regular expressions are abstracted as
structured match results fed to the line processors; Python `float` values are
modelled by `PyFloat` (exact rationals plus the non-finite values, ignoring
binary rounding); stateful document loops become explicit folds over a state
type.  Exceptions never occur in the embedded pure code; the document-open
failure of the PDF library is modelled by an `Except` input to each
document-level entry point.
-/

set_option exponentiation.threshold 1200
set_option maxRecDepth 16000

namespace FinParse

/-- Whitespace characters recognised by Python's `str.strip()` / `str.split()`
(the ASCII subset, which is all that occurs in these documents). -/
def isPySpace (c : Char) : Bool :=
  c = ' ' || c = '\t' || c = '\n' || c = '\r' || c = '\x0b' || c = '\x0c'

/-- Strip leading whitespace from a character list. -/
def stripLead (l : List Char) : List Char := l.dropWhile isPySpace

/-- Python `str.strip()` on a character list. -/
def pyStripL (l : List Char) : List Char :=
  ((stripLead l).reverse.dropWhile isPySpace).reverse

/-- Python `str.strip()`. -/
def pyStrip (s : String) : String := ⟨pyStripL s.data⟩

/-- ASCII lower-casing of a character (Hebrew and other characters are
unaffected, as in Python's `str.lower()` for this alphabet). -/
def lowerChar (c : Char) : Char :=
  if 'A' ≤ c ∧ c ≤ 'Z' then Char.ofNat (c.toNat + 32) else c

/-- A Python `float` value: an exact rational for finite values (the binary
rounding of IEEE doubles is abstracted away), plus the three non-finite
values `float` can take. -/
inductive PyFloat where
  | finite (q : ℚ)
  | inf
  | neginf
  | nan
deriving DecidableEq, Repr

/-- `some q` when the value is finite, `none` otherwise. -/
def PyFloat.toFinite : PyFloat → Option ℚ
  | .finite q => some q
  | _ => none

/-- Digits of a character list interpreted as a base-10 natural number. -/
def digitsToNat (l : List Char) : ℕ :=
  l.foldl (fun acc c => acc * 10 + (c.toNat - '0'.toNat)) 0

/-!
Rational arithmetic used inside the executable definitions.  The standard
`Rat.add`/`sub`/`mul`/`inv` of the library are `irreducible`, which blocks
kernel evaluation of concrete witnesses, so the embedding computes with
explicit numerator/denominator formulas through `mkRat`; the bridge lemmas
below prove them equal to the standard operations.
-/

/-- Addition on `ℚ`, computed through `mkRat`. -/
def qAdd (a b : ℚ) : ℚ := mkRat (a.num * b.den + b.num * a.den) (a.den * b.den)

/-- Subtraction on `ℚ`, computed through `mkRat`. -/
def qSub (a b : ℚ) : ℚ := mkRat (a.num * b.den - b.num * a.den) (a.den * b.den)

/-- Multiplication on `ℚ`, computed through `mkRat`. -/
def qMul (a b : ℚ) : ℚ := mkRat (a.num * b.num) (a.den * b.den)

/-- Absolute value on `ℚ`, computed through `mkRat`. -/
def qAbs (a : ℚ) : ℚ := mkRat (a.num.natAbs : ℤ) a.den

/-- `(10 : ℚ) ^ e` for an integer exponent, computed through `mkRat`. -/
def qTenPow : ℤ → ℚ
  | .ofNat n => mkRat ((10 ^ n : ℕ) : ℤ) 1
  | .negSucc n => mkRat 1 (10 ^ (n + 1))

/-- Largest finite double, abstracted: decimal literals whose magnitude
reaches `2^1024` overflow to infinity in Python's `float`. -/
def doubleOverflow : ℚ := mkRat ((2 ^ 1024 : ℕ) : ℤ) 1

/-- Parse the digit-part of a Python float literal: `digits[.digits][e[±]digits]`,
also accepting `.digits` and `digits.`.  Returns the exact rational value. -/
def parseDecimal (l : List Char) : Option ℚ :=
  let intPart := l.takeWhile Char.isDigit
  let rest₁ := l.dropWhile Char.isDigit
  let (fracPart, rest₂) :=
    match rest₁ with
    | '.' :: t => (t.takeWhile Char.isDigit, t.dropWhile Char.isDigit)
    | _ => ([], rest₁)
  if intPart.isEmpty ∧ fracPart.isEmpty then none
  else
    let mant : ℚ :=
      mkRat (digitsToNat (intPart ++ fracPart) : ℤ) (10 ^ fracPart.length)
    match rest₂ with
    | [] => some mant
    | e :: t =>
      if e = 'e' ∨ e = 'E' then
        let (esign, t') :=
          match t with
          | '+' :: t' => ((1 : ℤ), t')
          | '-' :: t' => ((-1 : ℤ), t')
          | _ => ((1 : ℤ), t)
        let ed := t'.takeWhile Char.isDigit
        if ed.isEmpty ∨ ¬(t'.dropWhile Char.isDigit).isEmpty then none
        else some (qMul mant (qTenPow (esign * (digitsToNat ed : ℤ))))
      else none

/-- Model of Python's `float(str)` conversion: strips surrounding whitespace,
accepts an optional sign followed by `inf`/`infinity`/`nan`
(case-insensitive) or a decimal literal; decimal values whose magnitude
reaches the double range overflow to infinity.  Returns `none` where Python
raises `ValueError`. -/
def pyFloat? (s : String) : Option PyFloat :=
  let l := pyStripL s.data
  let (neg, body) :=
    match l with
    | '+' :: t => (false, t)
    | '-' :: t => (true, t)
    | _ => (false, l)
  let low := body.map lowerChar
  if low = "inf".data ∨ low = "infinity".data then
    some (if neg then .neginf else .inf)
  else if low = "nan".data then some .nan
  else
    match parseDecimal body with
    | none => none
    | some q =>
      if doubleOverflow ≤ q then some (if neg then .neginf else .inf)
      else some (.finite (if neg then -q else q))

/-- Remove every `₪` and `,` character (the `re.sub(r'[₪,]', '', text)` step
of the numeric cleaners). -/
def removeShekelComma (s : String) : String :=
  ⟨s.data.filter (fun c => ¬(c = '₪' ∨ c = ','))⟩

/-- The token produced by the shared cleaning pipeline of `clean_number` /
`clean_number_general`: strip, drop currency/commas, rewrite a parenthesised
negative, rewrite a trailing-minus negative. -/
def cleanedToken (s : String) : String :=
  let t := removeShekelComma (pyStrip s)
  let t :=
    match t.data with
    | '(' :: rest =>
      if rest ≠ [] ∧ rest.getLast? = some ')' then ⟨'-' :: rest.dropLast⟩ else t
    | _ => t
  if t.data.getLast? = some '-' then ⟨'-' :: t.data.dropLast⟩ else t

/-- `clean_number_general` from `ap1.py`: cleans a numeric token and converts
with `float`, returning `none` (never raising) when conversion fails or the
cleaned token is empty. -/
def cleanNumberGeneral (t : Option String) : Option PyFloat :=
  match t with
  | none => none
  | some s =>
    let c := cleanedToken s
    if c = "" then none else pyFloat? c

/-- `clean_number` from `utils/helpers.py`: identical pipeline, with the
empty-input guard placed before the cleaning instead of after. -/
def cleanNumber (t : Option String) : Option PyFloat :=
  match t with
  | none => none
  | some s =>
    if s = "" then none
    else
      let c := cleanedToken s
      if c = "" then none else pyFloat? c

/-! ## Dates -/

/-- A parsed calendar date. -/
structure PDate where
  y : ℕ
  m : ℕ
  d : ℕ
deriving DecidableEq, Repr

/-- Ordinal encoding of a date; for valid calendar dates this order agrees
with chronological order (used to model the pandas datetime axis). -/
def PDate.key (dt : PDate) : ℕ := dt.y * 10000 + dt.m * 100 + dt.d

/-- Gregorian leap-year rule (as validated by `datetime.strptime`). -/
def isLeap (y : ℕ) : Bool := y % 4 = 0 ∧ (y % 100 ≠ 0 ∨ y % 400 = 0)

/-- Days in a month, as validated by `datetime`. -/
def daysInMonth (y m : ℕ) : ℕ :=
  if m = 2 then (if isLeap y then 29 else 28)
  else if m = 4 ∨ m = 6 ∨ m = 9 ∨ m = 11 then 30
  else 31

/-- Split a character list at `/` separators. -/
def splitSlash (l : List Char) : List (List Char) :=
  let rec go : List Char → List Char → List (List Char)
    | [], cur => [cur.reverse]
    | '/' :: t, cur => cur.reverse :: go t []
    | c :: t, cur => go t (c :: cur)
  go l []

/-- `datetime.strptime(s, "%d/%m/%Y")` / `"%d/%m/%y"`: day and month take 1-2
digits; `%Y` takes 1-4 digits used verbatim, `%y` exactly 2 digits mapped to
1969-2068; day/month/year ranges are validated against the calendar. -/
def parseDateFmt (s : String) (twoDigitYear : Bool) : Option PDate :=
  match splitSlash s.data with
  | [ds, ms, ys] =>
    if ds.all Char.isDigit ∧ ms.all Char.isDigit ∧ ys.all Char.isDigit ∧
        1 ≤ ds.length ∧ ds.length ≤ 2 ∧ 1 ≤ ms.length ∧ ms.length ≤ 2 ∧
        (if twoDigitYear then ys.length = 2 else 1 ≤ ys.length ∧ ys.length ≤ 4)
    then
      let d := digitsToNat ds
      let m := digitsToNat ms
      let y0 := digitsToNat ys
      let y := if twoDigitYear then (if y0 ≤ 68 then 2000 + y0 else 1900 + y0) else y0
      if 1 ≤ y ∧ 1 ≤ m ∧ m ≤ 12 ∧ 1 ≤ d ∧ d ≤ daysInMonth y m then
        some ⟨y, m, d⟩
      else none
    else none
  | _ => none

/-- `parse_date_general` from `ap1.py` (also `parse_date` of
`utils/helpers.py`): strip, try `%d/%m/%Y`, then fall back to `%d/%m/%y`;
`none` on both failures. -/
def parseDateGeneral (t : Option String) : Option PDate :=
  match t with
  | none => none
  | some s =>
    let s := pyStrip s
    if s = "" then none
    else
      match parseDateFmt s false with
      | some dt => some dt
      | none => parseDateFmt s true

/-! ## Text normalisation -/

/-- `.replace('\r', ' ').replace('\n', ' ')`: a character map, since both
patterns are single characters. -/
def replaceCRLF (l : List Char) : List Char :=
  l.map (fun c => if c = '\r' ∨ c = '\n' then ' ' else c)

/-- `normalize_text` from `utils/helpers.py`: replace CR/LF by spaces, strip;
NFC normalisation is the identity on the Hebrew/Latin text the parsers see
and is modelled as such. -/
def normalizeText (t : Option String) : Option String :=
  match t with
  | none => none
  | some s =>
    if s = "" then none
    else some ⟨pyStripL (replaceCRLF s.data)⟩

/-- Whether a character lies in the Hebrew range `U+0590`-`U+05EA` tested by
`normalize_text_leumi`. -/
def isHebrewChar (c : Char) : Bool := 0x590 ≤ c.toNat ∧ c.toNat ≤ 0x5EA

/-- Whether the text contains at least one Hebrew-range character. -/
def containsHebrew (l : List Char) : Bool := l.any isHebrewChar

/-- Helper of `wordsOf`: walk the characters, accumulating the current
(reversed) word and emitting it at each whitespace boundary. -/
def wordsOfAux : List Char → List Char → List (List Char)
  | [], cur => if cur.isEmpty then [] else [cur.reverse]
  | c :: t, cur =>
    if isPySpace c then
      if cur.isEmpty then wordsOfAux t [] else cur.reverse :: wordsOfAux t []
    else wordsOfAux t (c :: cur)

/-- Python `str.split()` on a character list: whitespace-separated words,
empty words dropped. -/
def wordsOf (l : List Char) : List (List Char) := wordsOfAux l []

/-- `' '.join(ws)`: interleave single spaces. -/
def joinWords : List (List Char) → List Char
  | [] => []
  | [w] => w
  | w :: ws => w ++ ' ' :: joinWords ws

/-- The pre-processing of `normalize_text_leumi`: replace CR/LF by spaces,
then strip (NFC modelled as the identity). -/
def prepLeumi (s : String) : List Char :=
  pyStripL (replaceCRLF s.data)

/-- `normalize_text_leumi` from `ap1.py`: after the pre-processing, if any
Hebrew-range character is present the whitespace-separated words are joined
in reverse order; otherwise the text is returned unchanged. -/
def normalizeTextLeumi (t : Option String) : Option String :=
  match t with
  | none => none
  | some s =>
    let l := prepLeumi s
    if containsHebrew l then some ⟨joinWords (wordsOf l).reverse⟩
    else some ⟨l⟩

/-! ## Dialect B (Leumi) reconciliation engine, `ap1.py` -/

/-- The six capture groups of the Leumi transaction regex of
`parse_leumi_transaction_line_extracted_order_v2` (the regex engine is
abstracted: a line is represented by its match result). -/
structure LeumiGroups where
  balanceStr : String
  amountStr : Option String
  refStr : Option String
  descStr : String
  valueDateStr : String
  txnDateStr : String
deriving DecidableEq, Repr

/-- `clean_transaction_amount_leumi` from `ap1.py`: strip, drop `₪` and
commas, strip leading zero-width spaces, require a decimal point, convert
with `float`, and reject magnitudes above the `100_000_000` sanity ceiling
(which also rejects the overflow infinities; a NaN cannot carry a decimal
point so that branch is unreachable and is mapped to `none`). -/
def cleanTransactionAmountLeumi (t : Option String) : Option ℚ :=
  match t with
  | none => none
  | some s =>
    if s = "" then none
    else
      let l := ((pyStrip s).data.filter (fun c => ¬(c = '₪' ∨ c = ','))).dropWhile
        (fun c => c.toNat = 0x200B)
      if ¬('.' ∈ l) then none
      else
        match pyFloat? ⟨l⟩ with
        | some (.finite q) => if 100000000 < qAbs q then none else some q
        | _ => none

/-- `round(x, 2)` as used by the reconciliation engine: rounding to a
multiple of `1/100`, computed on the exact fraction (Python's
round-half-to-even on binary floats is abstracted to exact half-up rounding;
the claims do not depend on the tie-breaking rule).  The bridge lemma
`round2_eq` identifies this with `round (100 * q) / 100`. -/
def round2 (q : ℚ) : ℚ :=
  mkRat ((2 * (100 * q.num) + (q.den : ℤ)) / (2 * (q.den : ℤ))) 100

/-- The reconciliation tolerance of `ap1.py` (`tolerance = 0.01`). -/
def tolerance : ℚ := mkRat 1 100

/-- Result of a successful Leumi line parse. -/
structure LeumiParsed where
  date : PDate
  balance : ℚ
  debit : Option ℚ
  credit : Option ℚ
deriving DecidableEq, Repr

/-- The debit/credit classification step of
`parse_leumi_transaction_line_extracted_order_v2` (`ap1.py`, lines 288-305):
only when an amount and a previous balance are present and the amount is
non-zero, compare the rounded balance delta against `±amount` within the
tolerance. -/
def classifyLeumi (b : ℚ) (amount prev : Option ℚ) : Option ℚ × Option ℚ :=
  match amount, prev with
  | some a, some p =>
    if a ≠ 0 then
      let diff := round2 (qSub b p)
      if qAbs (qAdd diff a) ≤ tolerance then (some a, none)
      else if qAbs (qSub diff a) ≤ tolerance then (none, some a)
      else (none, none)
    else (none, none)
  | _, _ => (none, none)

/-- `parse_leumi_transaction_line_extracted_order_v2` from `ap1.py`,
downstream of the regex: parse the value date and the balance (balances that
overflow to a non-finite float make the line fail, matching the per-line
exception handler of the caller), clean the optional amount, and classify the
amount as a debit or credit by tolerance-comparing the rounded balance delta
against `±amount`. -/
def parseLeumiTxnLineV2 (g? : Option LeumiGroups) (prev : Option ℚ) :
    Option LeumiParsed :=
  match g? with
  | none => none
  | some g =>
    match parseDateGeneral (some g.valueDateStr) with
    | none => none
    | some dt =>
      match (cleanNumberGeneral (some g.balanceStr)).bind PyFloat.toFinite with
      | none => none
      | some b =>
        let dc := classifyLeumi b (cleanTransactionAmountLeumi g.amountStr) prev
        some ⟨dt, b, dc.1, dc.2⟩

/-- A `(date, balance)` pair appended by the Leumi assembler. -/
structure LeumiPoint where
  date : PDate
  balance : ℚ
deriving DecidableEq, Repr

/-- State of the document loop of `extract_leumi_transactions_line_by_line`. -/
structure LeumiState where
  prev : Option ℚ
  foundFirst : Bool
  out : List LeumiPoint
deriving Repr

/-- A line of a Leumi page, represented by its normalised-text match
results: whether it is empty/too short (`len < 10`), the capture of the
initial-balance (`יתרה קודמת`) search if it matched, and the transaction
regex groups if matched. -/
structure LeumiLine where
  tooShort : Bool
  initBalStr : Option String
  groups : Option LeumiGroups
deriving Repr

/-- The cleaned initial balance of a line's `יתרה קודמת` match, if any. -/
def initCleanVal (ln : LeumiLine) : Option ℚ :=
  ln.initBalStr.bind (fun bs => (cleanNumberGeneral (some bs)).bind PyFloat.toFinite)

/-- The value of `previous_balance` after the first-balance bootstrap
(lines 340-361 of `ap1.py`), assuming the initial-balance branch did not
`continue`: if no first balance was found yet and no previous balance is
known, the first parse of the line (with no previous balance) supplies it. -/
def bootPrev (st : LeumiState) (ln : LeumiLine) : Option ℚ :=
  if st.foundFirst = false ∧ st.prev = none then
    (parseLeumiTxnLineV2 ln.groups none).map LeumiParsed.balance
  else st.prev

/-- The value of `found_first_balance` after the bootstrap. -/
def bootFound (st : LeumiState) (ln : LeumiLine) : Bool :=
  st.foundFirst ||
    (decide (st.prev = none) && (parseLeumiTxnLineV2 ln.groups none).isSome)

/-- One iteration of the line loop of
`extract_leumi_transactions_line_by_line` (`ap1.py`, lines 333-394): skip
short lines; consume an initial-balance line; otherwise parse the line with
the bootstrapped previous balance, append a balance point exactly when a
debit or credit was classified (or no previous balance exists), avoid
appending a duplicate of the immediately preceding point, and advance
`previous_balance` to the line's balance whenever the parse succeeded. -/
def leumiStep (st : LeumiState) (ln : LeumiLine) : LeumiState :=
  if ln.tooShort then st
  else if st.foundFirst = false ∧ (initCleanVal ln).isSome then
    { st with prev := initCleanVal ln, foundFirst := true }
  else
    match parseLeumiTxnLineV2 ln.groups (bootPrev st ln) with
    | none => { st with prev := bootPrev st ln, foundFirst := bootFound st ln }
    | some r =>
      if r.debit.isSome ∨ r.credit.isSome ∨ bootPrev st ln = none then
        let pt : LeumiPoint := ⟨r.date, r.balance⟩
        let out' := if st.out = [] ∨ st.out.getLast? ≠ some pt
          then st.out ++ [pt] else st.out
        { prev := some r.balance, foundFirst := bootFound st ln, out := out' }
      else
        { prev := some r.balance, foundFirst := bootFound st ln, out := st.out }

/-- The whole line loop: fold `leumiStep` over the lines of all pages. -/
def leumiFold (lines : List LeumiLine) (st : LeumiState) : LeumiState :=
  lines.foldl leumiStep st

/-! ## Document assembler post-processing: dedup by date, sort by date -/

/-- A row of a balance-series frame: the date on the pandas datetime axis
(encoded by its ordinal `PDate.key`) and the balance. -/
structure Rec where
  date : ℕ
  balance : ℚ
deriving DecidableEq, Repr

/-- The date order used by `sort_values(by='Date')`. -/
def recLE (a b : Rec) : Prop := a.date ≤ b.date

instance : DecidableRel recLE := fun a b => Nat.decLe a.date b.date

instance : IsTotal Rec recLE := ⟨fun a b => Nat.le_total a.date b.date⟩

instance : IsTrans Rec recLE := ⟨fun _ _ _ => Nat.le_trans⟩

/-- The lexicographic `(Date, Balance)` order used by the
`sort_values(by=['Date', 'Balance'])` of `ap1.py`'s Hapoalim assembler.
Rows equal under this order are equal as values, so the sort's output is
determined regardless of the underlying sort algorithm's stability. -/
def recLEDB (a b : Rec) : Prop :=
  a.date < b.date ∨ (a.date = b.date ∧ a.balance ≤ b.balance)

instance : DecidableRel recLEDB := fun a b => by
  unfold recLEDB
  infer_instance

instance : IsTotal Rec recLEDB :=
  ⟨fun a b => by
    unfold recLEDB
    rcases Nat.lt_trichotomy a.date b.date with h | h | h
    · exact Or.inl (Or.inl h)
    · rcases le_total a.balance b.balance with hb | hb
      · exact Or.inl (Or.inr ⟨h, hb⟩)
      · exact Or.inr (Or.inr ⟨h.symm, hb⟩)
    · exact Or.inr (Or.inl h)⟩

instance : IsTrans Rec recLEDB :=
  ⟨fun a b c hab hbc => by
    unfold recLEDB at hab hbc ⊢
    rcases hab with hab | ⟨hab, hab'⟩ <;> rcases hbc with hbc | ⟨hbc, hbc'⟩
    · exact Or.inl (Nat.lt_trans hab hbc)
    · exact Or.inl (hbc ▸ hab)
    · exact Or.inl (hab ▸ hbc)
    · exact Or.inr ⟨hab.trans hbc, hab'.trans hbc'⟩⟩

/-- `drop_duplicates(subset='Date', keep='last')` on a date-sorted frame
(equivalently `groupby('Date')['Balance'].last()`): within each run of equal
dates keep the last row. -/
def dropDupKeepLast : List Rec → List Rec
  | [] => []
  | [a] => [a]
  | a :: b :: t =>
    if a.date = b.date then dropDupKeepLast (b :: t)
    else a :: dropDupKeepLast (b :: t)

/-- The frame post-processing shared by `BaseBankParser.create_dataframe`
(`sort_values(by='Date')` then `drop_duplicates(keep='last')`) and
`BankParser._create_dataframe` (`sort_values(by='Date')` then
`groupby('Date').last()`): sort by date, then keep the last row of each
date-run.  pandas' default `sort_values` kind (quicksort) is NOT stable, so
which row of a duplicated date ends up last in its run is unspecified; the
insertion sort here is one concrete date-sorted permutation, chosen only to
keep the pipelines executable.  The claim theorems about this family
quantify over every date-sorted permutation and do not rely on this
choice. -/
def createDataframe (l : List Rec) : List Rec :=
  dropDupKeepLast (l.insertionSort recLE)

/-- The frame post-processing of `extract_transactions_from_pdf_hapoalim`
(`ap1.py`, lines 169-173): `sort_values(by=['Date', 'Balance'])`, then
`drop_duplicates(subset='Date', keep='last')`, then `sort_values(by='Date')`
(a no-op on the already date-sorted result).  Because ties of the
two-column key are value-equal rows, this pipeline is insensitive to the
sort algorithm, and it keeps the MAXIMUM balance of each date, not the
last-seen one. -/
def hapoalimCreateDataframe (l : List Rec) : List Rec :=
  dropDupKeepLast (l.insertionSort recLEDB)

/-! ## `bank_parser.py` dialect pipelines -/

/-- A line of a Hapoalim page as seen by `BankParser._parse_hapoalim`: the
raw text plus the (abstracted) results of the end-of-line date search and
start-of-line balance search. -/
structure HapoalimLine where
  raw : String
  dateStr : Option String
  balanceStr : Option String
deriving Repr

/-- Substring containment, as Python's `in` operator on strings. -/
def strContains (s pat : String) : Bool := decide (pat.data <:+: s.data)

/-- The header/summary phrases skipped by `_parse_hapoalim`. -/
def hapoalimSkipPhrases : List String :=
  ["יתרה לסוף יום", "עובר ושב", "תנועות בחשבון", "עמוד", "סך הכל", "הודעה זו כוללת"]

/-- The per-line processing of `BankParser._parse_hapoalim`: skip empty or
short (`len < 10`) normalised lines, require a parsed trailing date and a
parsed leading balance, and drop header/summary lines (`str.lower()` is the
identity on this Hebrew vocabulary). -/
def parseHapoalimLine (ln : HapoalimLine) : Option Rec :=
  match normalizeText (some ln.raw) with
  | none => none
  | some norm =>
    if norm = "" ∨ norm.length < 10 then none
    else
      match parseDateGeneral ln.dateStr with
      | none => none
      | some dt =>
        match (cleanNumber ln.balanceStr).bind PyFloat.toFinite with
        | none => none
        | some b =>
          if hapoalimSkipPhrases.any (fun p => strContains norm p) then none
          else some ⟨dt.key, b⟩

/-- The per-line processing of `BankParser._parse_leumi` (the simplified
Leumi pipeline without reconciliation): a matched line with a parsed balance,
a parsed first date, and a present non-zero amount yields a balance point. -/
def parseLeumiSimpleLine (g? : Option LeumiGroups) : Option Rec :=
  match g? with
  | none => none
  | some g =>
    let balance := (cleanNumber (some g.balanceStr)).bind PyFloat.toFinite
    let dt := parseDateGeneral (some g.valueDateStr)
    match dt, balance with
    | some d, some b =>
      let amount := g.amountStr.bind (fun s => cleanNumber (some s))
      if amount = none ∨ amount = some (.finite 0) then none
      else some ⟨d.key, b⟩
    | _, _ => none

/-- A line of a Discount page as seen by `BankParser._parse_discount`: the
(abstracted) results of the trailing double-date search and of the balance
search on the text before the dates. -/
structure DiscountLine where
  dateStrs : Option (String × String)
  balanceStr : Option String
deriving Repr

/-- The per-line processing of `BankParser._parse_discount`: require the two
trailing dates, parse the first one, and parse the balance captured before
the dates. -/
def parseDiscountLine (ln : DiscountLine) : Option Rec :=
  match ln.dateStrs with
  | none => none
  | some (d1, _) =>
    match parseDateGeneral (some d1) with
    | none => none
    | some dt =>
      match ln.balanceStr with
      | none => none
      | some bs =>
        match (cleanNumber (some bs)).bind PyFloat.toFinite with
        | none => none
        | some b => some ⟨dt.key, b⟩

/-- Pages of per-line match results, or a document-open failure of the PDF
library. -/
def PdfInput (α : Type) : Type := Except String (List (List α))

/-- `BankParser._parse_hapoalim`: an unreadable document yields an empty
frame; otherwise every line of every page is processed and the collected
points are deduplicated and sorted. -/
def bankParseHapoalim (input : PdfInput HapoalimLine) : List Rec :=
  match input with
  | .error _ => []
  | .ok pages => createDataframe ((pages.flatten).filterMap parseHapoalimLine)

/-- `BankParser._parse_leumi` at document level. -/
def bankParseLeumi (input : PdfInput (Option LeumiGroups)) : List Rec :=
  match input with
  | .error _ => []
  | .ok pages => createDataframe ((pages.flatten).filterMap parseLeumiSimpleLine)

/-- `BankParser._parse_discount` at document level. -/
def bankParseDiscount (input : PdfInput DiscountLine) : List Rec :=
  match input with
  | .error _ => []
  | .ok pages => createDataframe ((pages.flatten).filterMap parseDiscountLine)

/-- `extract_leumi_transactions_line_by_line` from `ap1.py` at document
level: run the reconciliation fold over all lines (page boundaries do not
reset the state), then deduplicate and sort the collected points. -/
def extractLeumiLineByLine (input : PdfInput LeumiLine) : List Rec :=
  match input with
  | .error _ => []
  | .ok pages =>
    let st := leumiFold pages.flatten ⟨none, false, []⟩
    createDataframe (st.out.map (fun p => ⟨p.date.key, p.balance⟩))

/-! ## Credit report: bank-name cleaning -/

/-- A character of the regex class `[\w\d\-]` (Python `\w` also covers the
Hebrew letters occurring in these documents). -/
def isWordChar (c : Char) : Bool :=
  c.isAlphanum || c = '_' || c = '-' || isHebrewChar c

/-- `re.sub(r'\s*XX-[\w\d\-]+.*', '', s)`: truncate at the first `XX-`
followed by at least one word character (the whitespace preceding the match
is removed by the `strip()` that always follows this substitution). -/
def cutXX : List Char → List Char
  | [] => []
  | c :: t =>
    if c = 'X' then
      match t with
      | 'X' :: '-' :: d :: _ => if isWordChar d then [] else c :: cutXX t
      | _ => c :: cutXX t
    else c :: cutXX t

/-- Consume `(ddd,)*` groups from a reversed character list. -/
def dropCommaGroupsRev : List Char → List Char
  | d1 :: d2 :: d3 :: ',' :: t =>
    if d1.isDigit ∧ d2.isDigit ∧ d3.isDigit then dropCommaGroupsRev t
    else d1 :: d2 :: d3 :: ',' :: t
  | l => l

/-- `re.sub(r'\s+\d{1,3}(?:,\d{3})*$', '', s)`: remove a trailing
comma-grouped number preceded by whitespace, when the whole anchored pattern
matches; otherwise leave the string unchanged. -/
def stripTrailNumGroup (s : String) : String :=
  let r := dropCommaGroupsRev s.data.reverse
  let run := r.takeWhile Char.isDigit
  let rest := r.dropWhile Char.isDigit
  if 1 ≤ run.length ∧ run.length ≤ 3 ∧
      (match rest.head? with | some c => isPySpace c | none => false) = true then
    ⟨(rest.dropWhile isPySpace).reverse⟩
  else s

/-- `re.sub(r'\s+בע\"מ$', '', s)`: remove a trailing `בע"מ` preceded by
whitespace. -/
def stripTrailBaam (s : String) : String :=
  match s.data.reverse with
  | 'מ' :: '"' :: 'ע' :: 'ב' :: t =>
    match t with
    | c :: _ => if isPySpace c then ⟨(t.dropWhile isPySpace).reverse⟩ else s
    | [] => s
  | _ => s

/-- `re.sub(r'\s+בנק$', '', s)`: remove a trailing `בנק` preceded by
whitespace. -/
def stripTrailBank (s : String) : String :=
  match s.data.reverse with
  | 'ק' :: 'נ' :: 'ב' :: t =>
    match t with
    | c :: _ => if isPySpace c then ⟨(t.dropWhile isPySpace).reverse⟩ else s
    | [] => s
  | _ => s

/-- `s.lower().endswith('בע\"מ')` (`lower` is the identity on Hebrew). -/
def endsWithBaam (s : String) : Bool := decide (['ב', 'ע', '"', 'מ'] <:+ s.data)

/-- The specific bank-name keywords of `process_entry_final_cr`. -/
def likelyBankKeywords : List String :=
  ["לאומי", "הפועלים", "דיסקונט", "מזרחי", "הבינלאומי", "מרכנתיל", "ירושלים",
   "איגוד", "טפחות"]

/-- The card-company keywords of `process_entry_final_cr`. -/
def cardKeywords : List String := ["מקס", "מימון ישיר", "כאל", "ישראכרט"]

/-- The stripping part of the bank-name post-processing of
`process_entry_final_cr` (`ap1.py`, lines 554-562): strip the `XX-`
identifier tail, a trailing bare number, a trailing `בע"מ` suffix and a
trailing `בנק`, falling back to the raw name when everything was stripped. -/
def bankNameBase (raw : String) : String :=
  let c1 := pyStrip ⟨cutXX raw.data⟩
  let c2 := pyStrip (stripTrailNumGroup c1)
  let c3 := pyStrip (stripTrailBaam c2)
  let c4 := pyStrip (stripTrailBank c3)
  if c4 = "" then raw else c4

/-- The bank-name post-processing of `process_entry_final_cr` (`ap1.py`,
lines 554-574): the stripping of `bankNameBase`, then re-appending the
canonical `בע"מ` suffix for known banks and for the specific card-company
names. -/
def cleanBankNameFinal (raw : String) : String :=
  let f0 := bankNameBase raw
  if likelyBankKeywords.any (fun k => strContains f0 k) ∧ ¬endsWithBaam f0 then
    f0 ++ " בע\"מ"
  else if cardKeywords.any (fun k => strContains f0 k) ∧ ¬endsWithBaam f0 then
    if (strContains f0 "מקס איט פיננסים" ∨ strContains f0 "מימון ישיר") ∧
        ¬endsWithBaam f0 then
      f0 ++ " בע\"מ"
    else f0
  else f0

/-! ## Credit report: entry finalisation (`process_entry_final_cr`, `ap1.py`) -/

/-- The accumulator entry of the credit-report walkers: creditor name so far
and the numbers seen so far (already cleaned to values by the line loop; the
re-cleaning of `process_entry_final_cr` through `str`/`float` is the identity
on such values and is modelled as such). -/
structure CEntry where
  bank : String
  numbers : List ℚ
deriving DecidableEq, Repr

/-- One emitted credit-report row; `np.nan` columns are `none`. -/
structure CreditRow where
  sec : String
  bank : String
  climit : Option ℚ
  original : Option ℚ
  outstanding : Option ℚ
  unpaid : Option ℚ
deriving DecidableEq, Repr

/-- Whether the first number is treated by `process_entry_final_cr` as a
payment-count field: a whole number smaller than 500 (`val1 == int(val1) and
val1 < 500`). -/
def isSmallWhole (q : ℚ) : Prop := q.den = 1 ∧ q < 500

instance (q : ℚ) : Decidable (isSmallWhole q) := by
  unfold isSmallWhole
  infer_instance

/-- `process_entry_final_cr` from `ap1.py` (lines 548-640): drop entries with
no bank name or no numbers, clean the bank name, and—when at least two
numbers are present—assign the numbers to columns by section, appending one
row; entries with fewer than two numbers are dropped. -/
def processEntryFinalCr (entry? : Option CEntry) (sec : String)
    (rows : List CreditRow) : List CreditRow :=
  match entry? with
  | none => rows
  | some entry =>
    if entry.bank = "" ∨ entry.numbers = [] then rows
    else
      let bankFinal := cleanBankNameFinal entry.bank
      let numbers := entry.numbers
      let n := numbers.length
      if 2 ≤ n then
        let v1 := numbers[0]?
        let v2 := numbers[1]?
        let v3 := numbers[2]?
        let v4 := numbers[3]?
        let row : CreditRow :=
          if sec = "עו\"ש" ∨ sec = "מסגרת אשראי" then
            ⟨sec, bankFinal, v1, none, v2, if 2 < n then v3 else some 0⟩
          else if sec = "הלוואה" ∨ sec = "משכנתה" then
            if 3 ≤ n then
              if ((match v1 with
                  | some q => decide (isSmallWhole q)
                  | none => false) && decide (4 ≤ n)) = true then
                ⟨sec, bankFinal, none, v2, v3, if 3 < n then v4 else some 0⟩
              else
                ⟨sec, bankFinal, none, v1, v2, if 2 < n then v3 else some 0⟩
            else
              ⟨sec, bankFinal, none, v1, v2, some 0⟩
          else
            ⟨sec, bankFinal, none, v1, v2, if 2 < n then v3 else some 0⟩
        rows ++ [row]
      else rows

/-! ## Credit report: the `credit_parser.py` accumulator -/

/-- Membership in the language of the core of the pure-number pattern after
a comma: `(,\d{3})*` groups whose last group may be extended by the trailing
`\.?\d*`. -/
def commaGroupsOK : List Char → Bool
  | a :: b :: c :: ',' :: t => a.isDigit && b.isDigit && c.isDigit && commaGroupsOK t
  | a :: b :: c :: '.' :: t => a.isDigit && b.isDigit && c.isDigit && t.all Char.isDigit
  | l => decide (3 ≤ l.length) && l.all Char.isDigit

/-- Membership in the language of `\d{1,3}(?:,\d{3})*\.?\d*` (with the
backtracking semantics of the Python engine: a bare digit run of any length
matches via the trailing `\d*`, but a dot after more than three leading
digits does not). -/
def numCoreOK (b : List Char) : Bool :=
  let d0 := b.takeWhile Char.isDigit
  let r := b.dropWhile Char.isDigit
  if d0.isEmpty then false
  else
    match r with
    | [] => true
    | '.' :: t => d0.length ≤ 3 && t.all Char.isDigit
    | ',' :: t => d0.length ≤ 3 && commaGroupsOK t
    | _ => false

/-- `re.match(r"^\s*(-?\d{1,3}(?:,\d{3})*\.?\d*)\s*$", line)` of
`CreditParser._process_line`: the captured number token, or `none`. -/
def pureNumberMatch (s : String) : Option String :=
  let l := pyStripL s.data
  match l with
  | '-' :: b => if numCoreOK b then some ⟨'-' :: b⟩ else none
  | b => if numCoreOK b then some ⟨b⟩ else none

/-- The creditor keyword vocabulary of `CreditParser._is_bank_name`. -/
def creditBankKeywords : List String :=
  ["בנק", "בע\"מ", "אגוד", "דיסקונט", "לאומי", "הפועלים", "מזרחי", "טפחות",
   "הבינלאומי", "מרכנתיל", "אוצר", "החייל", "ירושלים", "איגוד", "מימון",
   "ישיר", "כרטיסי", "אשראי", "מקס", "פיננסים", "כאל", "ישראכרט"]

/-- `CreditParser._is_bank_name`: strip the `XX-` identifier tail and test
for any creditor keyword. -/
def isBankName (line : String) : Bool :=
  let cleaned := pyStrip ⟨cutXX line.data⟩
  creditBankKeywords.any (fun k => strContains cleaned k)

/-- `CreditParser._clean_bank_name`: the three substitutions (without the
fall-back to the raw name of the `ap1.py` variant), then the canonical
`בע"מ` suffix for names containing a bank keyword. -/
def cleanBankNameCP (raw : String) : String :=
  let c1 := pyStrip ⟨cutXX raw.data⟩
  let c2 := pyStrip (stripTrailNumGroup c1)
  let c3 := pyStrip (stripTrailBaam c2)
  if ["בנק", "לאומי", "הפועלים", "דיסקונט"].any (fun k => strContains c3 k) ∧
      ¬endsWithBaam c3 then
    c3 ++ " בע\"מ"
  else c3

/-- `CreditParser._process_entry`: drop entries with no bank name or fewer
than two numbers; assign `limit/outstanding/unpaid` for current-account and
revolving-credit sections, `original/outstanding/unpaid` for loan and
mortgage sections, and append the row. -/
def processEntryCP (entry? : Option CEntry) (sec : String)
    (rows : List CreditRow) : List CreditRow :=
  match entry? with
  | none => rows
  | some entry =>
    if entry.bank = "" ∨ entry.numbers.length < 2 then rows
    else
      let bank := cleanBankNameCP entry.bank
      let numbers := entry.numbers
      let n := numbers.length
      let v1 := numbers[0]?
      let v2 := numbers[1]?
      let v3 := numbers[2]?
      let row : CreditRow :=
        if sec = "עו\"ש" ∨ sec = "מסגרת אשראי" then
          ⟨sec, bank, v1, none, v2, if 2 < n then v3 else some 0⟩
        else if sec = "הלוואה" ∨ sec = "משכנתה" then
          ⟨sec, bank, none, v1, v2, if 2 < n then v3 else some 0⟩
        else
          ⟨sec, bank, none, none, none, none⟩
      rows ++ [row]

/-- `CreditParser._process_line`: a pure-number line appends its value to the
open entry (and is a no-op when no entry is open); a bank-name line flushes
the open entry and opens a new one; anything else leaves the state
unchanged.  The number conversion `float(token.replace(',', ''))` is modelled
exactly, with non-finite overflow values treated as unusable. -/
def processLineCP (line : String) (entry? : Option CEntry) (sec : String)
    (rows : List CreditRow) : Option CEntry × List CreditRow :=
  match pureNumberMatch line with
  | some grp =>
    match entry? with
    | some e =>
      match (pyFloat? ⟨grp.data.filter (fun c => ¬c = ',')⟩).bind PyFloat.toFinite with
      | some q => (some ⟨e.bank, e.numbers ++ [q]⟩, rows)
      | none => (some e, rows)
    | none => (none, rows)
  | none =>
    if isBankName line then
      (some ⟨line, []⟩, processEntryCP entry? sec rows)
    else (entry?, rows)

/-- Fold `CreditParser._process_line` over a list of lines within a fixed
section. -/
def processLinesCP : List String → Option CEntry → String → List CreditRow →
    Option CEntry × List CreditRow
  | [], e, _, rows => (e, rows)
  | l :: ls, e, sec, rows =>
    let p := processLineCP l e sec rows
    processLinesCP ls p.1 sec p.2

/-- The section header vocabulary of `CreditParser._identify_section`, in
declaration order. -/
def sectionPatternsCP : List (String × String) :=
  [("חשבון עובר ושב", "עו\"ש"), ("הלוואה", "הלוואה"), ("משכנתה", "משכנתה"),
   ("מסגרת אשראי מתחדשת", "מסגרת אשראי")]

/-- `CreditParser._identify_section`: the first header keyword contained in
a sufficiently short line. -/
def identifySection (line : String) : Option String :=
  (sectionPatternsCP.find? (fun p =>
    strContains line p.1 ∧ line.length < p.1.length + 20)).map Prod.snd

/-- State of `CreditParser.parse_pdf`'s line loop. -/
structure CPState where
  sec : Option String
  entry : Option CEntry
  rows : List CreditRow
deriving Repr

/-- One iteration of the line loop of `CreditParser.parse_pdf`: normalise
and skip empty lines, handle section headers (flushing any open entry), and
otherwise process the line within the current section. -/
def creditStep (st : CPState) (rawLine : String) : CPState :=
  match normalizeText (some (pyStrip rawLine)) with
  | none => st
  | some line =>
    if line = "" then st
    else
      match identifySection line with
      | some secName =>
        let rows' :=
          match st.entry, st.sec with
          | some e, some s => processEntryCP (some e) s st.rows
          | _, _ => st.rows
        ⟨some secName, none, rows'⟩
      | none =>
        match st.sec with
        | some s =>
          let p := processLineCP line st.entry s st.rows
          ⟨st.sec, p.1, p.2⟩
        | none => st

/-- `CreditParser.parse_pdf` at document level: an unreadable document
yields an empty table; otherwise all lines are walked and the last open
entry is flushed. -/
def creditParsePdf (input : PdfInput String) : List CreditRow :=
  match input with
  | .error _ => []
  | .ok pages =>
    let st := pages.flatten.foldl creditStep ⟨none, none, []⟩
    match st.entry, st.sec with
    | some e, some s => processEntryCP (some e) s st.rows
    | _, _ => st.rows

/-! ## Supporting lemmas -/

theorem takeWhile_app (p : Char → Bool) (w l : List Char) (h : ∀ c ∈ w, p c = true) :
    (w ++ l).takeWhile p = w ++ l.takeWhile p := by
  induction w with
  | nil => simp
  | cons c t ih =>
    have hc : p c = true := h c (by simp)
    simp [List.takeWhile_cons, hc, ih (fun x hx => h x (by simp [hx]))]

theorem dropWhile_app (p : Char → Bool) (w l : List Char) (h : ∀ c ∈ w, p c = true) :
    (w ++ l).dropWhile p = l.dropWhile p := by
  induction w with
  | nil => simp
  | cons c t ih =>
    have hc : p c = true := h c (by simp)
    simp [List.dropWhile_cons, hc, ih (fun x hx => h x (by simp [hx]))]

/-- Every word produced by `wordsOfAux` is nonempty and free of whitespace,
provided the accumulated partial word is. -/
theorem wordsOfAux_sound (l : List Char) :
    ∀ cur, (∀ c ∈ cur, isPySpace c = false) →
      ∀ w ∈ wordsOfAux l cur, w ≠ [] ∧ ∀ c ∈ w, isPySpace c = false := by
  induction l with
  | nil =>
    intro cur hcur w hw
    rw [wordsOfAux] at hw
    by_cases hc : cur.isEmpty
    · rw [if_pos hc] at hw
      simp at hw
    · rw [if_neg hc] at hw
      rw [List.mem_singleton] at hw
      subst hw
      refine ⟨by simpa using hc, ?_⟩
      intro x hx
      exact hcur x (List.mem_reverse.mp hx)
  | cons c t ih =>
    intro cur hcur w hw
    rw [wordsOfAux] at hw
    by_cases hsp : isPySpace c
    · rw [if_pos hsp] at hw
      by_cases hc : cur.isEmpty
      · rw [if_pos hc] at hw
        exact ih [] (by simp) w hw
      · rw [if_neg hc] at hw
        rw [List.mem_cons] at hw
        rcases hw with rfl | hw
        · refine ⟨by simpa using hc, ?_⟩
          intro x hx
          exact hcur x (List.mem_reverse.mp hx)
        · exact ih [] (by simp) w hw
    · rw [if_neg hsp] at hw
      refine ih (c :: cur) ?_ w hw
      intro x hx
      rw [List.mem_cons] at hx
      rcases hx with rfl | hx
      · exact Bool.eq_false_iff.mpr hsp
      · exact hcur x hx

/-- Every word produced by `wordsOf` is nonempty and free of whitespace. -/
theorem wordsOf_sound (l : List Char) :
    ∀ w ∈ wordsOf l, w ≠ [] ∧ ∀ c ∈ w, isPySpace c = false :=
  wordsOfAux_sound l [] (by simp)

/-- Walking a whitespace-free block just extends the accumulator. -/
theorem wordsOfAux_app (w : List Char) (hw : ∀ c ∈ w, isPySpace c = false) :
    ∀ l cur, wordsOfAux (w ++ l) cur = wordsOfAux l (w.reverse ++ cur) := by
  induction w with
  | nil => intro l cur; simp
  | cons c t ih =>
    intro l cur
    have hc : isPySpace c = false := hw c (by simp)
    rw [List.cons_append, wordsOfAux, if_neg (by simp [hc])]
    rw [ih (fun x hx => hw x (by simp [hx])) l (c :: cur)]
    congr 1
    simp

/-- Splitting the single-space join of nonempty whitespace-free words
recovers the word list. -/
theorem wordsOf_join (ws : List (List Char))
    (h : ∀ w ∈ ws, w ≠ [] ∧ ∀ c ∈ w, isPySpace c = false) :
    wordsOf (joinWords ws) = ws := by
  induction ws with
  | nil => rfl
  | cons w rest ih =>
    obtain ⟨hne, hns⟩ := h w (by simp)
    cases rest with
    | nil =>
      show wordsOfAux (joinWords [w]) [] = [w]
      rw [joinWords]
      have happ := wordsOfAux_app w hns [] []
      rw [List.append_nil] at happ
      rw [happ, wordsOfAux, if_neg (by simpa using hne)]
      simp
    | cons w2 rest2 =>
      show wordsOfAux (w ++ ' ' :: joinWords (w2 :: rest2)) [] = w :: w2 :: rest2
      rw [wordsOfAux_app w hns _ []]
      rw [wordsOfAux, if_pos (by decide),
        if_neg (by simpa using hne)]
      rw [List.append_nil, List.reverse_reverse]
      rw [show wordsOfAux (joinWords (w2 :: rest2)) [] = wordsOf (joinWords (w2 :: rest2)) from rfl]
      rw [ih (fun x hx => h x (by simp [hx]))]

/-- A `(Date, Balance)`-sorted list is in particular date-sorted. -/
theorem sorted_recLE_of_recLEDB {s : List Rec} (h : List.Sorted recLEDB s) :
    List.Sorted recLE s :=
  h.imp (fun hab => by
    unfold recLEDB at hab
    unfold recLE
    rcases hab with hab | ⟨hab, _⟩
    · omega
    · omega)

theorem dropDup_subset : ∀ s : List Rec, ∀ x ∈ dropDupKeepLast s, x ∈ s
  | [] => by simp [dropDupKeepLast]
  | [a] => by simp [dropDupKeepLast]
  | a :: b :: t => by
    intro x hx
    rw [dropDupKeepLast] at hx
    by_cases h : a.date = b.date
    · rw [if_pos h] at hx
      exact List.mem_cons_of_mem a (dropDup_subset (b :: t) x hx)
    · rw [if_neg h] at hx
      rw [List.mem_cons] at hx
      rcases hx with rfl | hx
      · exact List.mem_cons_self x (b :: t)
      · exact List.mem_cons_of_mem a (dropDup_subset (b :: t) x hx)

theorem dropDup_chain : ∀ s : List Rec, List.Sorted recLE s →
    List.Chain' (fun a b => a.date < b.date) (dropDupKeepLast s)
  | [] => by simp [dropDupKeepLast]
  | [a] => by simp [dropDupKeepLast]
  | a :: b :: t => by
    intro hs
    rw [dropDupKeepLast]
    by_cases h : a.date = b.date
    · rw [if_pos h]
      exact dropDup_chain (b :: t) hs.of_cons
    · rw [if_neg h]
      rw [List.chain'_cons']
      refine ⟨?_, dropDup_chain (b :: t) hs.of_cons⟩
      intro y hy
      have hyMem : y ∈ b :: t :=
        dropDup_subset (b :: t) y (List.mem_of_mem_head? hy)
      have hab : recLE a b := List.rel_of_sorted_cons hs b (by simp)
      have hby : recLE b y ∨ y = b := by
        rw [List.mem_cons] at hyMem
        rcases hyMem with rfl | hyMem
        · exact Or.inr rfl
        · exact Or.inl (List.rel_of_sorted_cons hs.of_cons y hyMem)
      unfold recLE at hab hby
      rcases hby with hby | rfl <;> omega

theorem string_append_ne_empty (a b : String) (hb : b ≠ "") : a ++ b ≠ "" := by
  cases a with
  | mk as =>
    cases b with
    | mk bs =>
      intro h
      apply hb
      have hd : as ++ bs = ([] : List Char) := congrArg String.data h
      have hnil : bs = [] := (List.append_eq_nil.mp hd).2
      rw [hnil]

theorem bankNameBase_ne (raw : String) (h : raw ≠ "") : bankNameBase raw ≠ "" := by
  rw [bankNameBase]
  split
  · exact h
  · assumption

theorem cleanBankNameFinal_ne (raw : String) (h : raw ≠ "") :
    cleanBankNameFinal raw ≠ "" := by
  have hbase := bankNameBase_ne raw h
  have hsuf : (" בע\"מ" : String) ≠ "" := by decide
  rw [cleanBankNameFinal]
  split_ifs
  · exact string_append_ne_empty _ _ hsuf
  · exact string_append_ne_empty _ _ hsuf
  · exact hbase
  · exact hbase

/-! ## Claim theorems -/

/-- C8, counterexample: the numeric cleaner has no digit check and no
finiteness check.  The token `"inf"` contains no digit, yet `clean_number`
returns positive infinity, and `clean_number_general` turns `"nan"` into a
NaN — contradicting the claim that such tokens yield null and that no call
ever returns a non-finite value. -/
theorem c8_counterexample :
    ("inf".data.all (fun c => !c.isDigit)) = true ∧
    cleanNumber (some "inf") = some PyFloat.inf ∧
    cleanNumberGeneral (some "nan") = some PyFloat.nan := by
  exact ⟨by decide, by decide, by decide⟩

/-- C8, amended: for every input string the cleaner is total (never raises),
the two variants agree, and the result is exactly the `float` conversion of
the cleaned token — `none` exactly on conversion failure, with no rejection
of digit-free or non-finite tokens. -/
theorem c8_amended (s : String) :
    cleanNumber (some s) = cleanNumberGeneral (some s) ∧
    cleanNumberGeneral (some s) = pyFloat? (cleanedToken s) := by
  have hempty : pyFloat? "" = none := by decide
  have hcleanEmpty : cleanedToken "" = "" := by decide
  constructor
  · by_cases h : s = ""
    · subst h
      show none = cleanNumberGeneral (some "")
      show none = (if cleanedToken "" = "" then none else pyFloat? (cleanedToken ""))
      rw [hcleanEmpty]
      rfl
    · show (if s = "" then _ else _) = _
      rw [if_neg h]
      rfl
  · show (if cleanedToken s = "" then none else pyFloat? (cleanedToken s)) =
      pyFloat? (cleanedToken s)
    by_cases h : cleanedToken s = ""
    · rw [if_pos h, h, hempty]
    · rw [if_neg h]

/-- C9: for every input whose prepared text contains a Hebrew-range
codepoint, the Leumi normalizer's reversal repair reverses only the order of
the whitespace-separated words: the words of the output are the words of the
prepared input in reverse order, each word's character sequence unchanged. -/
theorem c9_hebrew_word_reversal (s t : String)
    (hout : normalizeTextLeumi (some s) = some t)
    (hheb : containsHebrew (prepLeumi s) = true) :
    wordsOf t.data = (wordsOf (prepLeumi s)).reverse := by
  have hout' : (if containsHebrew (prepLeumi s)
      then some (⟨joinWords (wordsOf (prepLeumi s)).reverse⟩ : String)
      else some (⟨prepLeumi s⟩ : String)) = some t := hout
  rw [if_pos hheb] at hout'
  have ht : t = ⟨joinWords (wordsOf (prepLeumi s)).reverse⟩ :=
    (Option.some.injEq _ _ ▸ hout').symm
  subst ht
  show wordsOf (joinWords (wordsOf (prepLeumi s)).reverse) = _
  apply wordsOf_join
  intro w hw
  exact wordsOf_sound (prepLeumi s) w (List.mem_reverse.mp hw)

/-- C9, witness: a concrete Hebrew two-word line is word-reversed. -/
theorem c9_witness :
    containsHebrew (prepLeumi "שלום עולם") = true ∧
    wordsOf (String.data "עולם שלום") = (wordsOf (prepLeumi "שלום עולם")).reverse :=
  ⟨by decide, c9_hebrew_word_reversal "שלום עולם" "עולם שלום" (by decide) (by decide)⟩

/-- C4, counterexample: the `ap1.py` Hapoalim assembler sorts by
`['Date', 'Balance']` before `drop_duplicates(keep='last')`, so for the
document-order series `[(date 1, 7), (date 1, 3)]` it keeps balance `7` —
the maximum — while the last-seen balance for date `1` is `3`: the claim's
"the last-seen balance in document order is kept for each date" is false at
this input. -/
theorem c4_counterexample :
    hapoalimCreateDataframe [⟨1, 7⟩, ⟨1, 3⟩] = [⟨1, 7⟩] ∧
    (([⟨1, 7⟩, ⟨1, 3⟩] : List Rec).filter (fun x => x.date = 1)).getLast? =
      some ⟨1, 3⟩ ∧
    ¬(∀ r ∈ hapoalimCreateDataframe [⟨1, 7⟩, ⟨1, 3⟩],
        (([⟨1, 7⟩, ⟨1, 3⟩] : List Rec).filter
          (fun x => x.date = r.date)).getLast? = some r) := by
  exact ⟨by decide, by decide, by decide⟩

/-- C4, amended: for every output balance series produced by a document
assembler, no two entries share the same calendar date and the entries are
sorted ascending by date (the output dates are strictly increasing), and
every kept row is one of the collected rows; but which balance survives for
a duplicated date depends on the tie order of the (unstable) sort — the
`ap1.py` Hapoalim assembler keeps the maximum per date — and need not be the
last-seen in document order.  Stated over every date-sorted permutation of
the collected rows, so no sort-stability assumption is made; the two
concrete frame pipelines are instances. -/
theorem c4_amended (l : List Rec) :
    (∀ s : List Rec, s.Perm l → List.Sorted recLE s →
      List.Chain' (fun a b => a.date < b.date) (dropDupKeepLast s) ∧
      ∀ r ∈ dropDupKeepLast s, r ∈ l) ∧
    List.Chain' (fun a b => a.date < b.date) (createDataframe l) ∧
    List.Chain' (fun a b => a.date < b.date) (hapoalimCreateDataframe l) := by
  refine ⟨?_, ?_, ?_⟩
  · intro s hperm hsort
    exact ⟨dropDup_chain s hsort,
      fun r hr => hperm.mem_iff.mp (dropDup_subset s r hr)⟩
  · exact dropDup_chain _ (List.sorted_insertionSort recLE l)
  · exact dropDup_chain _
      (sorted_recLE_of_recLEDB (List.sorted_insertionSort recLEDB l))

/-- C4, amended witness: a concrete date-sorted permutation that is NOT the
stable one (the two date-2 rows are swapped) still dedups to strictly
increasing dates with rows drawn from the input. -/
theorem c4_amended_witness :
    (List.Chain' (fun a b => a.date < b.date)
        (dropDupKeepLast [⟨1, 3⟩, ⟨2, 7⟩, ⟨2, 5⟩]) ∧
      ∀ r ∈ dropDupKeepLast [⟨1, 3⟩, ⟨2, 7⟩, ⟨2, 5⟩],
        r ∈ ([⟨2, 5⟩, ⟨1, 3⟩, ⟨2, 7⟩] : List Rec)) ∧
    List.Chain' (fun a b => a.date < b.date)
      (createDataframe [⟨2, 5⟩, ⟨1, 3⟩, ⟨2, 7⟩]) :=
  ⟨(c4_amended [⟨2, 5⟩, ⟨1, 3⟩, ⟨2, 7⟩]).1 [⟨1, 3⟩, ⟨2, 7⟩, ⟨2, 5⟩]
      (by decide) (by decide),
    (c4_amended [⟨2, 5⟩, ⟨1, 3⟩, ⟨2, 7⟩]).2.1⟩

/-- C3: every document-level entry point returns an empty series/table (and
cannot raise, being a total function) when the PDF bytes cannot be opened:
the three bank-dialect pipelines of `BankParser`, the `ap1.py` Leumi
extractor, and the credit-report parser all map an open failure to an empty
result. -/
theorem c3_error_empty (e : String) :
    bankParseHapoalim (.error e) = [] ∧
    bankParseLeumi (.error e) = [] ∧
    bankParseDiscount (.error e) = [] ∧
    extractLeumiLineByLine (.error e) = [] ∧
    creditParsePdf (.error e) = [] :=
  ⟨rfl, rfl, rfl, rfl, rfl⟩

theorem qAdd_eq (a b : ℚ) : qAdd a b = a + b := by
  rw [qAdd, Rat.mkRat_eq_divInt]
  have ha : (a.den : ℤ) ≠ 0 := Int.natCast_ne_zero.mpr a.den_nz
  have hb : (b.den : ℤ) ≠ 0 := Int.natCast_ne_zero.mpr b.den_nz
  push_cast
  rw [← Rat.divInt_add_divInt _ _ ha hb, Rat.num_divInt_den, Rat.num_divInt_den]

theorem qSub_eq (a b : ℚ) : qSub a b = a - b := by
  rw [qSub, Rat.mkRat_eq_divInt]
  have ha : (a.den : ℤ) ≠ 0 := Int.natCast_ne_zero.mpr a.den_nz
  have hb : (b.den : ℤ) ≠ 0 := Int.natCast_ne_zero.mpr b.den_nz
  push_cast
  rw [sub_eq_add_neg (a.num * (b.den : ℤ)), ← neg_mul,
    ← Rat.divInt_add_divInt _ _ ha hb, Rat.num_divInt_den, ← Rat.neg_def,
    ← sub_eq_add_neg]

theorem qAbs_eq (a : ℚ) : qAbs a = |a| := by
  rcases le_or_lt 0 a with h | h
  · rw [abs_of_nonneg h, qAbs]
    rw [Int.natAbs_of_nonneg (Rat.num_nonneg.mpr h), Rat.mkRat_self]
  · rw [abs_of_neg h, qAbs]
    have hneg : a.num < 0 := Rat.num_neg.mpr h
    rw [show ((a.num.natAbs : ℤ)) = -a.num by omega, Rat.mkRat_eq_divInt,
      ← Rat.neg_def]

theorem round2_eq (q : ℚ) : round2 q = ((round ((100 : ℚ) * q) : ℤ) : ℚ) / 100 := by
  have hden : ((q.den : ℚ)) ≠ 0 := Nat.cast_ne_zero.mpr q.den_nz
  have hx : (100 : ℚ) * q + 1 / 2 =
      (((2 * (100 * q.num) + (q.den : ℤ)) : ℤ) : ℚ) / (((2 * q.den : ℕ)) : ℚ) := by
    conv_lhs => rw [← Rat.num_div_den q]
    push_cast
    field_simp
    ring
  have hr : round ((100 : ℚ) * q) =
      (2 * (100 * q.num) + (q.den : ℤ)) / (2 * (q.den : ℤ)) := by
    rw [round_eq, hx, Rat.floor_intCast_div_natCast]
    push_cast
    ring_nf
  rw [round2, hr, Rat.mkRat_eq_divInt, Rat.divInt_eq_div]
  norm_num

theorem classifyLeumi_debit (b : ℚ) (amount prev : Option ℚ) (a : ℚ)
    (h : (classifyLeumi b amount prev).1 = some a) :
    ∃ p, prev = some p ∧ |round2 (b - p) + a| ≤ tolerance := by
  match amount, prev with
  | none, _ => simp [classifyLeumi] at h
  | some a', none => simp [classifyLeumi] at h
  | some a', some p =>
    rw [classifyLeumi] at h
    by_cases hz : a' ≠ 0
    · rw [if_pos hz] at h
      by_cases h1 : qAbs (qAdd (round2 (qSub b p)) a') ≤ tolerance
      · rw [if_pos h1] at h
        simp at h
        subst h
        rw [qAbs_eq, qAdd_eq, qSub_eq] at h1
        exact ⟨p, rfl, h1⟩
      · rw [if_neg h1] at h
        by_cases h2 : qAbs (qSub (round2 (qSub b p)) a') ≤ tolerance
        · rw [if_pos h2] at h
          simp at h
        · rw [if_neg h2] at h
          simp at h
    · rw [if_neg hz] at h
      simp at h

theorem classifyLeumi_credit (b : ℚ) (amount prev : Option ℚ) (a : ℚ)
    (h : (classifyLeumi b amount prev).2 = some a) :
    ∃ p, prev = some p ∧ |round2 (b - p) - a| ≤ tolerance := by
  match amount, prev with
  | none, _ => simp [classifyLeumi] at h
  | some a', none => simp [classifyLeumi] at h
  | some a', some p =>
    rw [classifyLeumi] at h
    by_cases hz : a' ≠ 0
    · rw [if_pos hz] at h
      by_cases h1 : qAbs (qAdd (round2 (qSub b p)) a') ≤ tolerance
      · rw [if_pos h1] at h
        simp at h
      · rw [if_neg h1] at h
        by_cases h2 : qAbs (qSub (round2 (qSub b p)) a') ≤ tolerance
        · rw [if_pos h2] at h
          simp at h
          subst h
          rw [qAbs_eq, qSub_eq, qSub_eq] at h2
          exact ⟨p, rfl, h2⟩
        · rw [if_neg h2] at h
          simp at h
    · rw [if_neg hz] at h
      simp at h

/-- Inversion of a successful Leumi line parse. -/
theorem parseLeumiTxnLineV2_inv (g? : Option LeumiGroups) (prev : Option ℚ)
    (r : LeumiParsed) (hp : parseLeumiTxnLineV2 g? prev = some r) :
    ∃ g dt b, g? = some g ∧
      parseDateGeneral (some g.valueDateStr) = some dt ∧
      (cleanNumberGeneral (some g.balanceStr)).bind PyFloat.toFinite = some b ∧
      r = ⟨dt, b, (classifyLeumi b (cleanTransactionAmountLeumi g.amountStr) prev).1,
        (classifyLeumi b (cleanTransactionAmountLeumi g.amountStr) prev).2⟩ := by
  match g? with
  | none => simp [parseLeumiTxnLineV2] at hp
  | some g =>
    rw [parseLeumiTxnLineV2] at hp
    cases hd : parseDateGeneral (some g.valueDateStr) with
    | none => rw [hd] at hp; simp at hp
    | some dt =>
      rw [hd] at hp
      cases hb : (cleanNumberGeneral (some g.balanceStr)).bind PyFloat.toFinite with
      | none => rw [hb] at hp; simp at hp
      | some b =>
        rw [hb] at hp
        simp only [Option.some.injEq] at hp
        exact ⟨g, dt, b, rfl, hd, hb, hp.symm⟩

/-- The shape of a line-loop step on a successfully parsed line. -/
theorem leumiStep_parsed (st : LeumiState) (ln : LeumiLine) (r : LeumiParsed)
    (hshort : ln.tooShort = false)
    (hinit : ¬(st.foundFirst = false ∧ (initCleanVal ln).isSome = true))
    (hparse : parseLeumiTxnLineV2 ln.groups (bootPrev st ln) = some r) :
    leumiStep st ln =
      if r.debit.isSome = true ∨ r.credit.isSome = true ∨ bootPrev st ln = none then
        { prev := some r.balance, foundFirst := bootFound st ln,
          out := if st.out = [] ∨ st.out.getLast? ≠ some ⟨r.date, r.balance⟩
            then st.out ++ [⟨r.date, r.balance⟩] else st.out }
      else { prev := some r.balance, foundFirst := bootFound st ln, out := st.out } := by
  rw [leumiStep, if_neg (by simp [hshort]), if_neg hinit, hparse]

/-- C1: reconciliation soundness for the Dialect-B (Leumi) engine.  In any
line-loop step that parses a transaction line, every debit classification
satisfies `|round(b - p, 2) + a| ≤ tolerance` and every credit
classification satisfies `|round(b - p, 2) - a| ≤ tolerance` against the
effective previous balance; and a matched line whose delta reconciles with
neither (when a previous balance exists) appends no balance point. -/
theorem c1_reconciliation_sound (st : LeumiState) (ln : LeumiLine)
    (r : LeumiParsed) (hshort : ln.tooShort = false)
    (hinit : ¬(st.foundFirst = false ∧ (initCleanVal ln).isSome = true))
    (hparse : parseLeumiTxnLineV2 ln.groups (bootPrev st ln) = some r) :
    (∀ a, r.debit = some a →
      ∃ p, bootPrev st ln = some p ∧ |round2 (r.balance - p) + a| ≤ tolerance) ∧
    (∀ a, r.credit = some a →
      ∃ p, bootPrev st ln = some p ∧ |round2 (r.balance - p) - a| ≤ tolerance) ∧
    (r.debit = none → r.credit = none → bootPrev st ln ≠ none →
      (leumiStep st ln).out = st.out) := by
  obtain ⟨g, dt, b, hg, hd, hb, hr⟩ := parseLeumiTxnLineV2_inv _ _ _ hparse
  refine ⟨?_, ?_, ?_⟩
  · intro a ha
    have hdeb : (classifyLeumi b (cleanTransactionAmountLeumi g.amountStr)
        (bootPrev st ln)).1 = some a := by
      rw [hr] at ha
      exact ha
    have hbal : r.balance = b := by rw [hr]
    rw [hbal]
    exact classifyLeumi_debit _ _ _ _ hdeb
  · intro a ha
    have hcred : (classifyLeumi b (cleanTransactionAmountLeumi g.amountStr)
        (bootPrev st ln)).2 = some a := by
      rw [hr] at ha
      exact ha
    have hbal : r.balance = b := by rw [hr]
    rw [hbal]
    exact classifyLeumi_credit _ _ _ _ hcred
  · intro hdn hcn hbp
    rw [leumiStep_parsed st ln r hshort hinit hparse]
    rw [if_neg (by simp [hdn, hcn, hbp])]

/-- C2: after every successfully parsed Dialect-B line the reconciliation
state's previous balance advances to the line's balance, including when the
line yields no emission; and an unclassified line (no debit, no credit, a
previous balance present) appends no balance point while still advancing. -/
theorem c2_prev_balance_advances (st : LeumiState) (ln : LeumiLine)
    (r : LeumiParsed) (hshort : ln.tooShort = false)
    (hinit : ¬(st.foundFirst = false ∧ (initCleanVal ln).isSome = true))
    (hparse : parseLeumiTxnLineV2 ln.groups (bootPrev st ln) = some r) :
    (leumiStep st ln).prev = some r.balance ∧
    (r.debit = none → r.credit = none → bootPrev st ln ≠ none →
      (leumiStep st ln).out = st.out) := by
  rw [leumiStep_parsed st ln r hshort hinit hparse]
  constructor
  · by_cases hemit : r.debit.isSome = true ∨ r.credit.isSome = true ∨ bootPrev st ln = none
    · rw [if_pos hemit]
    · rw [if_neg hemit]
  · intro hdn hcn hbp
    rw [if_neg (by simp [hdn, hcn, hbp])]

/-- C1, witness: the spec's scenario — previous balance 5000, a matched line
with balance 4,700.00 and amount 300.00 — is classified as a debit and the
reconciliation inequality holds. -/
theorem c1_witness :
    (parseLeumiTxnLineV2
        (some ⟨"4,700.00", some "300.00", some "X", "d", "05/03/2024", "05/03/2024"⟩)
        (bootPrev ⟨some 5000, true, []⟩
          ⟨false, none, some ⟨"4,700.00", some "300.00", some "X", "d",
            "05/03/2024", "05/03/2024"⟩⟩) =
      some ⟨⟨2024, 3, 5⟩, 4700, some 300, none⟩) ∧
    (∀ a, (some (300 : ℚ)) = some a →
      ∃ p, bootPrev ⟨some 5000, true, []⟩
          ⟨false, none, some ⟨"4,700.00", some "300.00", some "X", "d",
            "05/03/2024", "05/03/2024"⟩⟩ = some p ∧
        |round2 ((4700 : ℚ) - p) + a| ≤ tolerance) := by
  refine ⟨by decide, ?_⟩
  have h := c1_reconciliation_sound ⟨some 5000, true, []⟩
    ⟨false, none, some ⟨"4,700.00", some "300.00", some "X", "d",
      "05/03/2024", "05/03/2024"⟩⟩
    ⟨⟨2024, 3, 5⟩, 4700, some 300, none⟩ (by decide) (by decide) (by decide)
  exact h.1

/-- C2, witness: the spec's scenario 3 — previous balance 4710, a matched
line with balance 4700.00 and amount 50.00 whose delta (-10) reconciles with
neither sign — appends nothing, yet the previous balance advances to 4700. -/
theorem c2_witness :
    (leumiStep ⟨some 4710, true, [⟨⟨2024, 3, 1⟩, 4710⟩]⟩
        ⟨false, none, some ⟨"4,700.00", some "50.00", some "X", "d",
          "05/03/2024", "05/03/2024"⟩⟩).prev = some 4700 ∧
    (leumiStep ⟨some 4710, true, [⟨⟨2024, 3, 1⟩, 4710⟩]⟩
        ⟨false, none, some ⟨"4,700.00", some "50.00", some "X", "d",
          "05/03/2024", "05/03/2024"⟩⟩).out = [⟨⟨2024, 3, 1⟩, 4710⟩] := by
  have h := c2_prev_balance_advances ⟨some 4710, true, [⟨⟨2024, 3, 1⟩, 4710⟩]⟩
    ⟨false, none, some ⟨"4,700.00", some "50.00", some "X", "d",
      "05/03/2024", "05/03/2024"⟩⟩
    ⟨⟨2024, 3, 5⟩, 4700, none, none⟩ (by decide) (by decide) (by decide)
  exact ⟨h.1, h.2 rfl rfl (by decide)⟩

/-- C5, counterexample: a loan entry with exactly three numbers
`[12, 50000, 48000]` whose first is a small whole number is NOT treated as
having a payment-count prefix (the code requires at least four numbers): the
emitted row has `original = 12`, `outstanding = 50000`, `unpaid = 48000`,
not the claimed `original = 50000`, `outstanding = 48000`, `unpaid = 0`. -/
theorem c5_counterexample :
    processEntryFinalCr (some ⟨"בנק לאומי", [12, 50000, 48000]⟩) "הלוואה" [] =
      [⟨"הלוואה", "בנק לאומי בע\"מ", none, some 12, some 50000, some 48000⟩] ∧
    processEntryFinalCr (some ⟨"בנק לאומי", [12, 50000, 48000]⟩) "הלוואה" [] ≠
      [⟨"הלוואה", "בנק לאומי בע\"מ", none, some 50000, some 48000, some 0⟩] := by
  exact ⟨by decide, by decide⟩

/-- C5, amended: in a loan or mortgage section, an entry with a non-empty
creditor name and at least FOUR numbers whose first is a whole number below
500 discards that first number as a payment count and emits
`original = n2`, `outstanding = n3`, `unpaid = n4`. -/
theorem c5_amended (bank : String) (hbank : bank ≠ "")
    (n1 n2 n3 n4 : ℚ) (rest : List ℚ) (sec : String) (rows : List CreditRow)
    (hsec : sec = "הלוואה" ∨ sec = "משכנתה")
    (hsmall : isSmallWhole n1) :
    processEntryFinalCr (some ⟨bank, n1 :: n2 :: n3 :: n4 :: rest⟩) sec rows =
      rows ++ [⟨sec, cleanBankNameFinal bank, none, some n2, some n3, some n4⟩] := by
  rcases hsec with rfl | rfl <;>
    simp [processEntryFinalCr, hbank, hsmall, Nat.lt_add_of_pos_left,
      Nat.le_add_left]

/-- C5, amended witness: with four numbers `[12, 50000, 48000, 100]` the
small-integer prefix is discarded and the row is
`original = 50000`, `outstanding = 48000`, `unpaid = 100`. -/
theorem c5_amended_witness :
    processEntryFinalCr (some ⟨"בנק לאומי", [12, 50000, 48000, 100]⟩) "הלוואה" [] =
      [] ++ [⟨"הלוואה", cleanBankNameFinal "בנק לאומי", none, some 50000,
        some 48000, some 100⟩] :=
  c5_amended "בנק לאומי" (by decide) 12 50000 48000 100 [] "הלוואה" []
    (Or.inl rfl) (by decide)

/-- C6, counterexample: a loan entry with a non-empty creditor name and
exactly one usable number is dropped — no `LedgerEntry` with
`outstanding = n1` is emitted, contradicting the claim. -/
theorem c6_counterexample :
    processEntryFinalCr (some ⟨"בנק לאומי", [48000]⟩) "הלוואה" [] = [] := by
  decide

/-- C6, amended: a finalized entry with exactly one number is never emitted,
in any section: at least two numbers are required for emission. -/
theorem c6_amended (bank : String) (q : ℚ) (sec : String)
    (rows : List CreditRow) :
    processEntryFinalCr (some ⟨bank, [q]⟩) sec rows = rows := by
  rw [processEntryFinalCr]
  by_cases h : bank = "" ∨ ([q] : List ℚ) = []
  · rw [if_pos h]
  · rw [if_neg h]
    rw [if_neg (by simp)]

/-- C7: every row emitted by `process_entry_final_cr` has a non-empty
creditor name and at least one non-null column among
limit/original/outstanding; entries failing the floor are dropped. -/
theorem c7_completeness_floor (entry? : Option CEntry) (sec : String)
    (rows : List CreditRow) :
    ∀ r ∈ processEntryFinalCr entry? sec rows,
      r ∈ rows ∨ (r.bank ≠ "" ∧
        (r.climit ≠ none ∨ r.original ≠ none ∨ r.outstanding ≠ none)) := by
  intro r hr
  match entry? with
  | none => exact Or.inl hr
  | some ⟨bank, numbers⟩ =>
    match numbers with
    | [] => left; simpa [processEntryFinalCr] using hr
    | [x] => left; simpa [processEntryFinalCr] using hr
    | x :: y :: zs =>
      by_cases hbank : bank = ""
      · left
        simpa [processEntryFinalCr, hbank] using hr
      · have hclean : cleanBankNameFinal bank ≠ "" := cleanBankNameFinal_ne bank hbank
        simp [processEntryFinalCr, hbank, Nat.le_add_left] at hr
        rcases hr with hr | hr
        · exact Or.inl hr
        · right
          revert hr
          generalize cleanBankNameFinal bank = bn at hclean ⊢
          intro hr
          subst hr
          split_ifs <;> exact ⟨hclean, by simp⟩

/-- C7, witness: a concrete checking-account entry is emitted with a
non-empty name and a non-null limit column. -/
theorem c7_witness :
    (⟨"עו\"ש", "בנק לאומי בע\"מ", some 10000, none, some 2500,
        some 0⟩ : CreditRow) ∈ ([] : List CreditRow) ∨
      ((⟨"עו\"ש", "בנק לאומי בע\"מ", some 10000, none, some 2500,
          some 0⟩ : CreditRow).bank ≠ "" ∧
        ((⟨"עו\"ש", "בנק לאומי בע\"מ", some 10000, none, some 2500,
            some 0⟩ : CreditRow).climit ≠ none ∨
          (⟨"עו\"ש", "בנק לאומי בע\"מ", some 10000, none, some 2500,
            some 0⟩ : CreditRow).original ≠ none ∨
          (⟨"עו\"ש", "בנק לאומי בע\"מ", some 10000, none, some 2500,
            some 0⟩ : CreditRow).outstanding ≠ none)) :=
  c7_completeness_floor (some ⟨"בנק לאומי", [10000, 2500]⟩) "עו\"ש" []
    ⟨"עו\"ש", "בנק לאומי בע\"מ", some 10000, none, some 2500, some 0⟩
    (by decide)

/-- C10: a pure-number line met while no entry is open is discarded
entirely: processing it leaves the accumulator closed and the emitted rows
of the whole remaining walk unchanged, so its number reaches no later
`LedgerEntry`. -/
theorem c10_orphan_number_discarded (line : String)
    (hnum : (pureNumberMatch line).isSome = true)
    (rest : List String) (sec : String) (rows : List CreditRow) :
    processLinesCP (line :: rest) none sec rows =
      processLinesCP rest none sec rows := by
  obtain ⟨grp, hgrp⟩ := Option.isSome_iff_exists.mp hnum
  rw [processLinesCP]
  rw [show processLineCP line none sec rows = (none, rows) by
    rw [processLineCP, hgrp]]

/-- C10, witness: an orphan `50,000.00` line ahead of a creditor block
changes nothing about the walk of the rest of the block. -/
theorem c10_witness :
    (pureNumberMatch "50,000.00").isSome = true ∧
    processLinesCP ["50,000.00", "בנק לאומי", "1,000.00", "2,000.00"]
        none "הלוואה" [] =
      processLinesCP ["בנק לאומי", "1,000.00", "2,000.00"] none "הלוואה" [] :=
  ⟨by decide, c10_orphan_number_discarded "50,000.00" (by decide)
    ["בנק לאומי", "1,000.00", "2,000.00"] "הלוואה" []⟩

end FinParse
